import Mathlib

/-!
Verification of the core trading components of the robingood-bot repository:
the `RiskManager` (src/execution/risk.py) and the `Backtester`
(src/strategy/backtest.py).

Modelling conventions:
* Python floats (balances, prices, fees) are embedded as rationals `ℚ`;
  the claims are about the algorithms, not IEEE rounding.
* Python share counts are embedded as integers `ℤ` (Python `int`).
* Methods that mutate `self` become pure state transformers
  `State → State` (or `State → α × State` when they also return a value).
* `Backtester.run`, which either raises or mutates, returns
  `Option String × Backtester`: the first component is the raised error
  message (`none` on success) and the second the state after the call,
  which equals the input state whenever an error is raised.
* Exceptions raised inside `__init__` (so that no object is produced)
  become `Except String Backtester` on the constructor.
-/

/-- Python `int()` applied to a float/rational: truncation toward zero
(floor for nonnegative arguments, ceiling for negative ones). -/
def pyInt (q : ℚ) : ℤ := if 0 ≤ q then ⌊q⌋ else ⌈q⌉

/-- State of `RiskManager` (src/execution/risk.py): the fields set in
`RiskManager.__init__`.  The logger field carries no state and is omitted. -/
structure RiskManager where
  max_position_size : ℚ
  max_drawdown : ℚ
  initial_capital : ℚ
  current_balance : ℚ
  peak_balance : ℚ
  is_kill_switch_active : Bool
deriving DecidableEq, Repr

/-- `RiskManager.__init__(max_position_size, max_drawdown, initial_capital)`:
`current_balance` and `peak_balance` start at `initial_capital`, the kill
switch starts inactive. -/
def mkRiskManager (mps mdd init : ℚ) : RiskManager :=
  { max_position_size := mps
    max_drawdown := mdd
    initial_capital := init
    current_balance := init
    peak_balance := init
    is_kill_switch_active := false }

namespace RiskManager

/-- `update_balance(current_balance)`: sets the current balance and raises
the peak balance to `max(peak_balance, current_balance)`. -/
def update_balance (rm : RiskManager) (b : ℚ) : RiskManager :=
  { rm with current_balance := b, peak_balance := max rm.peak_balance b }

/-- `check_drawdown()`: computes
`drawdown = (peak_balance - current_balance) / initial_capital`; when
`drawdown > max_drawdown` it latches the kill switch and returns `true`,
otherwise it returns `false` and leaves the state unchanged.  (Python would
raise `ZeroDivisionError` when `initial_capital = 0`; the spec requires
`initial_capital > 0`, and no claim touches that degenerate case.) -/
def check_drawdown (rm : RiskManager) : Bool × RiskManager :=
  let drawdown := (rm.peak_balance - rm.current_balance) / rm.initial_capital
  if drawdown > rm.max_drawdown then
    (true, { rm with is_kill_switch_active := true })
  else
    (false, rm)

/-- `check_position_size(position_size)`: returns `false` when
`position_size > current_balance * max_position_size`, else `true`.
The Python method assigns no attribute, so it is a pure predicate. -/
def check_position_size (rm : RiskManager) (position_size : ℚ) : Bool :=
  let max_allowed_position := rm.current_balance * rm.max_position_size
  if position_size > max_allowed_position then false else true

/-- `is_trading_allowed()`: `false` when the kill switch is active,
`true` otherwise.  Pure predicate. -/
def is_trading_allowed (rm : RiskManager) : Bool :=
  if rm.is_kill_switch_active then false else true

/-- `activate_kill_switch()`: sets the kill-switch flag. -/
def activate_kill_switch (rm : RiskManager) : RiskManager :=
  { rm with is_kill_switch_active := true }

/-- `reset()`: restores `current_balance` and `peak_balance` to
`initial_capital` and clears the kill switch. -/
def reset (rm : RiskManager) : RiskManager :=
  { rm with
    current_balance := rm.initial_capital
    peak_balance := rm.initial_capital
    is_kill_switch_active := false }

end RiskManager

/-- One atomic public operation on a `RiskManager`, used to quantify over
arbitrary call sequences. -/
inductive RMOp where
  | updateBalance (b : ℚ)
  | checkDrawdown
  | checkPositionSize (x : ℚ)
  | isTradingAllowed
  | activateKillSwitch
  | rmReset
deriving DecidableEq, Repr

/-- The state reached after one operation (return values discarded:
`check_position_size` and `is_trading_allowed` assign nothing, so they leave
the state unchanged; `check_drawdown` keeps its side effect). -/
def applyOp (rm : RiskManager) : RMOp → RiskManager
  | .updateBalance b => rm.update_balance b
  | .checkDrawdown => rm.check_drawdown.2
  | .checkPositionSize _ => rm
  | .isTradingAllowed => rm
  | .activateKillSwitch => rm.activate_kill_switch
  | .rmReset => rm.reset

/-- The state reached after a finite sequence of operations. -/
def applyOps (rm : RiskManager) (ops : List RMOp) : RiskManager :=
  ops.foldl applyOp rm

/-- The slice of a pandas `DataFrame` that `Backtester` reads: the list of
column names, and the rows as `(index timestamp, close value)` pairs
(the code touches only `data.columns`, `data.index` and `data['close']`). -/
structure DataFrame where
  cols : List String
  rows : List (ℤ × ℚ)
deriving DecidableEq, Repr

/-- The slice of a pandas `Series` that `Backtester` reads: rows as
`(index timestamp, signal value)` pairs. -/
structure Series where
  rows : List (ℤ × ℤ)
deriving DecidableEq, Repr

/-- One per-step snapshot appended to `self.history`. -/
structure HistEntry where
  timestamp : ℤ
  price : ℚ
  signal : ℤ
  cash : ℚ
  positions : ℤ
  equity : ℚ
deriving DecidableEq, Repr

/-- State of `Backtester` (src/strategy/backtest.py): the fields set in
`Backtester.__init__`.  The logger is omitted; `self.signals` (set by `run`,
read only by the loop of that same call) is passed as an argument instead of
being stored. -/
structure Backtester where
  data : DataFrame
  initial_capital : ℚ
  trading_fee : ℚ
  cash : ℚ
  positions : ℤ
  equity : ℚ
  history : List HistEntry
deriving DecidableEq, Repr

/-- `Backtester.__init__(data, initial_capital, trading_fee)`: initializes
the engine state and raises `ValueError` when the data has no `close`
column (so no object is produced on that failure). -/
def mkBacktester (data : DataFrame) (initial_capital trading_fee : ℚ) :
    Except String Backtester :=
  if "close" ∈ data.cols then
    .ok
      { data := data
        initial_capital := initial_capital
        trading_fee := trading_fee
        cash := initial_capital
        positions := 0
        equity := initial_capital
        history := [] }
  else
    .error "Data must contain a close column."

/-- The signal handling of one iteration of `Backtester._backtest`:
given the current `cash` and `positions` and the step price and signal,
returns the `(cash, positions)` after the trade.
* signal `1` (buy): `shares_to_buy = int(cash / (price * (1 + fee)))`;
  when positive, spend `shares_to_buy * price * (1 + fee)`; else no-op;
* signal `-1` (sell): when `positions > 0`, credit
  `positions * price * (1 - fee)` and zero the position; else no-op;
* any other signal: no-op. -/
def backtestStep (fee cash : ℚ) (positions : ℤ) (price : ℚ) (signal : ℤ) :
    ℚ × ℤ :=
  if signal = 1 then
    let shares_to_buy := pyInt (cash / (price * (1 + fee)))
    if shares_to_buy > 0 then
      (cash - shares_to_buy * price * (1 + fee), positions + shares_to_buy)
    else
      (cash, positions)
  else if signal = -1 then
    if positions > 0 then
      (cash + positions * price * (1 - fee), 0)
    else
      (cash, positions)
  else
    (cash, positions)

/-- The loop of `Backtester._backtest` over the remaining
`(timestamp, price, signal)` steps: returns the history entries appended and
the final `(cash, positions, equity)`.  Each iteration recomputes
`equity = cash + positions * price` after handling the signal and appends a
snapshot.  (The loop also reads `prev_price = close[i-1]` into a local
variable that it never uses; it is dropped here.) -/
def backtestLoop (fee : ℚ) :
    ℚ → ℤ → ℚ → List (ℤ × ℚ × ℤ) → List HistEntry × ℚ × ℤ × ℚ
  | cash, positions, equity, [] => ([], cash, positions, equity)
  | cash, positions, _, (t, price, signal) :: rest =>
      let s := backtestStep fee cash positions price signal
      let eq := s.1 + s.2 * price
      let r := backtestLoop fee s.1 s.2 eq rest
      ({ timestamp := t
         price := price
         signal := signal
         cash := s.1
         positions := s.2
         equity := eq } :: r.1, r.2)

/-- The `(timestamp, price, signal)` triples the loop of `_backtest` visits:
`for i in range(1, len(data))` pairs `data.index[i]`, `data['close'][i]` and
`signals[i]` positionally, so the steps are the row-wise zip of the data and
the signal series with the first element dropped (it only seeds the unused
previous price). -/
def tradeInputs (data : DataFrame) (signals : Series) : List (ℤ × ℚ × ℤ) :=
  (List.map (fun p => (p.1.1, p.1.2, p.2.2)) (data.rows.zip signals.rows)).tail

/-- `Backtester.run(signals)` followed by `_backtest`: validates that the
data and signal indices are equal (raising `ValueError` and leaving every
field untouched otherwise), then runs the simulation loop starting from the
current `cash`/`positions`, appending its snapshots to `history`.  Returns
`(raised error message, state after the call)`.  (The `isinstance` check on
`signals` is enforced by the argument type.) -/
def Backtester.run (bt : Backtester) (signals : Series) :
    Option String × Backtester :=
  if bt.data.rows.map Prod.fst = signals.rows.map Prod.fst then
    let r := backtestLoop bt.trading_fee bt.cash bt.positions bt.equity
      (tradeInputs bt.data signals)
    (none,
      { bt with
        cash := r.2.1
        positions := r.2.2.1
        equity := r.2.2.2
        history := bt.history ++ r.1 })
  else
    (some "Data and signals must have the same index.", bt)

/-- `Backtester.get_results()`: an empty table when no history exists,
otherwise the history materialized as a timestamp-indexed table (here: the
list of entries itself). -/
def Backtester.get_results (bt : Backtester) : List HistEntry :=
  if bt.history.isEmpty then [] else bt.history

/-- The loop of `Backtester._calculate_max_drawdown` over the equity curve:
tracks the running peak and the maximal `(peak - value) / peak`. -/
def maxDrawdownLoop : ℚ → ℚ → List ℚ → ℚ
  | _, md, [] => md
  | peak, md, v :: rest =>
      let peak1 := if v > peak then v else peak
      let dd := (peak1 - v) / peak1
      maxDrawdownLoop peak1 (if dd > md then dd else md) rest

/-- `Backtester._calculate_max_drawdown(equity)`: seeds the peak with
`equity.iloc[0]` and folds over the curve.  (Python would raise on an empty
series; `calculate_performance_metrics` only calls this on a nonempty one.) -/
def calculateMaxDrawdown : List ℚ → ℚ
  | [] => 0
  | e0 :: rest => maxDrawdownLoop e0 0 (e0 :: rest)

/-- The numeric fields of the metrics dict that are rational-valued.
`annualized_return` (a fractional power `(1+r)^(252/n)`) and `sharpe_ratio`
(a square root with a NaN sentinel) are real/float-valued quantities outside
the rational embedding; no claim refers to them and they are omitted. -/
structure Metrics where
  initial_capital : ℚ
  final_equity : ℚ
  total_return : ℚ
  max_drawdown : ℚ
deriving DecidableEq, Repr

/-- Outcome of `calculate_performance_metrics()`: the empty dict `{}` when
there is no history, the metrics dict normally, or the `IndexError` that
`results['equity'].iloc[-1]` raises when dropping the NaN first return left
an empty frame. -/
inductive MetricsResult where
  | emptyDict
  | ok (m : Metrics)
  | indexError
deriving DecidableEq, Repr

/-- `Backtester.calculate_performance_metrics()`: returns `{}` when no
history exists; otherwise takes the equity curve of `get_results()`, adds
`pct_change` returns and drops the NaN rows — for a positive-equity curve
exactly the first row, modelled as `List.tail` — then reads the final equity
and derives the metrics.  `iloc[-1]` on the emptied frame (single-entry
history) raises `IndexError`. -/
def Backtester.calculate_performance_metrics (bt : Backtester) :
    MetricsResult :=
  if bt.history.isEmpty then .emptyDict
  else
    let equities := (bt.get_results.map HistEntry.equity).tail
    match equities.getLast? with
    | none => .indexError
    | some final_equity =>
        let total_return := final_equity / bt.initial_capital - 1
        .ok
          { initial_capital := bt.initial_capital
            final_equity := final_equity
            total_return := total_return
            max_drawdown := calculateMaxDrawdown equities }

/-! ## Lemmas about `RiskManager` -/

/-- `check_position_size` unfolded to the predicate it decides. -/
lemma check_position_size_iff (rm : RiskManager) (x : ℚ) :
    rm.check_position_size x = true ↔
      x ≤ rm.current_balance * rm.max_position_size := by
  simp only [RiskManager.check_position_size]
  split
  · next h => simp [not_le.mpr h]
  · next h => simp [not_lt.mp h]

/-- No operation other than `reset()` clears an active kill switch. -/
lemma applyOp_preserves_kill_switch (rm : RiskManager) (op : RMOp)
    (hop : op ≠ RMOp.rmReset) (h : rm.is_kill_switch_active = true) :
    (applyOp rm op).is_kill_switch_active = true := by
  cases op with
  | updateBalance b => simp [applyOp, RiskManager.update_balance, h]
  | checkDrawdown =>
      simp only [applyOp, RiskManager.check_drawdown]
      split <;> simp [h]
  | checkPositionSize x => exact h
  | isTradingAllowed => exact h
  | activateKillSwitch => simp [applyOp, RiskManager.activate_kill_switch]
  | rmReset => exact absurd rfl hop

/-- A reset-free call sequence leaves an active kill switch active. -/
lemma applyOps_preserves_kill_switch (ops : List RMOp) :
    ∀ rm : RiskManager, RMOp.rmReset ∉ ops → rm.is_kill_switch_active = true →
      (applyOps rm ops).is_kill_switch_active = true := by
  induction ops with
  | nil => intro rm _ h; simpa [applyOps] using h
  | cons op rest ih =>
      intro rm hops h
      have hop : op ≠ RMOp.rmReset := fun he => hops (he ▸ List.mem_cons_self op rest)
      have hrest : RMOp.rmReset ∉ rest := fun hm => hops (List.mem_cons_of_mem op hm)
      simpa [applyOps, List.foldl_cons] using
        ih (applyOp rm op) hrest (applyOp_preserves_kill_switch rm op hop h)

/-- The peak balance after a sequence of `update_balance` calls is the
running maximum of the peak before them and all balances passed. -/
lemma foldl_update_balance_peak (bs : List ℚ) :
    ∀ rm : RiskManager,
      (bs.foldl RiskManager.update_balance rm).peak_balance =
        bs.foldl max rm.peak_balance := by
  induction bs with
  | nil => intro rm; rfl
  | cons b rest ih =>
      intro rm
      simp [List.foldl_cons, ih, RiskManager.update_balance]

/-- Every atomic operation preserves `current_balance ≤ peak_balance`. -/
lemma applyOp_current_le_peak (rm : RiskManager) (op : RMOp)
    (h : rm.current_balance ≤ rm.peak_balance) :
    (applyOp rm op).current_balance ≤ (applyOp rm op).peak_balance := by
  cases op with
  | updateBalance b => simp [applyOp, RiskManager.update_balance]
  | checkDrawdown =>
      simp only [applyOp, RiskManager.check_drawdown]
      split <;> simpa using h
  | checkPositionSize x => exact h
  | isTradingAllowed => exact h
  | activateKillSwitch => exact h
  | rmReset => simp [applyOp, RiskManager.reset]

/-! ## Theorems about `RiskManager` (claims C2, C4, C7, C8) -/

/-- C2: `check_drawdown()` returns `true` iff
`(peak_balance - current_balance) / initial_capital > max_drawdown`; the
kill-switch flag after the call is `previous flag OR returned value` (so it
is set to `true` exactly when the call returns `true` and is never cleared
by it); and once the flag is set, any call sequence free of `reset()` keeps
it set, so `is_trading_allowed()` stays `false` even if balances recover. -/
theorem check_drawdown_latch (rm : RiskManager) (ops : List RMOp)
    (hops : RMOp.rmReset ∉ ops) :
    (rm.check_drawdown.1 = true ↔
      (rm.peak_balance - rm.current_balance) / rm.initial_capital >
        rm.max_drawdown)
    ∧ rm.check_drawdown.2.is_kill_switch_active =
        (rm.is_kill_switch_active || rm.check_drawdown.1)
    ∧ (rm.is_kill_switch_active = true →
        (applyOps rm ops).is_kill_switch_active = true
        ∧ (applyOps rm ops).is_trading_allowed = false) := by
  refine ⟨?_, ?_, ?_⟩
  · simp only [RiskManager.check_drawdown]
    split
    · next h => simp [h]
    · next h => simp [h]
  · simp only [RiskManager.check_drawdown]
    split <;> simp
  · intro h
    have hk := applyOps_preserves_kill_switch ops rm hops h
    exact ⟨hk, by simp [RiskManager.is_trading_allowed, hk]⟩

/-- Witness for C2 at a concrete input: a manager whose kill switch is
already active, followed by a balance recovery and a drawdown check, stays
halted. -/
theorem check_drawdown_latch_witness :
    RMOp.rmReset ∉ [RMOp.updateBalance 12000, RMOp.checkDrawdown]
    ∧ ((RiskManager.mk 1 1 10000 9000 11000 true).check_drawdown.1 = true ↔
        ((RiskManager.mk 1 1 10000 9000 11000 true).peak_balance -
            (RiskManager.mk 1 1 10000 9000 11000 true).current_balance) /
          (RiskManager.mk 1 1 10000 9000 11000 true).initial_capital >
          (RiskManager.mk 1 1 10000 9000 11000 true).max_drawdown)
    ∧ (applyOps (RiskManager.mk 1 1 10000 9000 11000 true)
        [RMOp.updateBalance 12000, RMOp.checkDrawdown]).is_kill_switch_active
          = true
    ∧ (applyOps (RiskManager.mk 1 1 10000 9000 11000 true)
        [RMOp.updateBalance 12000, RMOp.checkDrawdown]).is_trading_allowed
          = false := by
  have h := check_drawdown_latch (RiskManager.mk 1 1 10000 9000 11000 true)
    [RMOp.updateBalance 12000, RMOp.checkDrawdown] (by simp)
  exact ⟨by simp, h.1, (h.2.2 rfl).1, (h.2.2 rfl).2⟩

/-- C4: starting from a freshly constructed `RiskManager`, after any
sequence of `update_balance` calls the peak balance equals the maximum of
`initial_capital` and all balance arguments passed so far (every prefix of
a call sequence is itself such a sequence, so this holds after each call). -/
theorem update_balance_running_max (mps mdd init : ℚ) (bs : List ℚ) :
    (bs.foldl RiskManager.update_balance (mkRiskManager mps mdd init)).peak_balance
      = bs.foldl max init := by
  simpa [mkRiskManager] using
    foldl_update_balance_peak bs (mkRiskManager mps mdd init)

/-- C7: `check_position_size(x)` is `true` iff
`x ≤ current_balance * max_position_size`; it leaves the manager state
unchanged; and with `max_position_size > 0` it is monotone in
`current_balance`. -/
theorem check_position_size_spec (rm : RiskManager) (x b1 b2 : ℚ)
    (hm : 0 < rm.max_position_size) (hb : b1 ≤ b2) :
    (rm.check_position_size x = true ↔
      x ≤ rm.current_balance * rm.max_position_size)
    ∧ applyOp rm (RMOp.checkPositionSize x) = rm
    ∧ (({ rm with current_balance := b1 } : RiskManager).check_position_size x
          = true →
       ({ rm with current_balance := b2 } : RiskManager).check_position_size x
          = true) := by
  refine ⟨check_position_size_iff rm x, rfl, ?_⟩
  intro h1
  have hx := (check_position_size_iff { rm with current_balance := b1 } x).1 h1
  exact (check_position_size_iff { rm with current_balance := b2 } x).2
    (le_trans hx (mul_le_mul_of_nonneg_right hb hm.le))

/-- Witness for C7 at a concrete input. -/
theorem check_position_size_spec_witness :
    (0 : ℚ) < (RiskManager.mk 1 1 10000 10 10000 false).max_position_size
    ∧ (10 : ℚ) ≤ 20
    ∧ ((RiskManager.mk 1 1 10000 10 10000 false).check_position_size 5 = true ↔
        (5 : ℚ) ≤ (RiskManager.mk 1 1 10000 10 10000 false).current_balance *
          (RiskManager.mk 1 1 10000 10 10000 false).max_position_size)
    ∧ applyOp (RiskManager.mk 1 1 10000 10 10000 false)
        (RMOp.checkPositionSize 5) = RiskManager.mk 1 1 10000 10 10000 false
    ∧ (RiskManager.mk 1 1 10000 20 10000 false).check_position_size 5
        = true := by
  have h := check_position_size_spec (RiskManager.mk 1 1 10000 10 10000 false)
    5 10 20 (by norm_num) (by norm_num)
  refine ⟨by norm_num, by norm_num, h.1, h.2.1, ?_⟩
  have h2 := h.2.2 ((check_position_size_iff _ 5).2 (by norm_num))
  simpa using h2

/-- C8: `peak_balance ≥ current_balance` holds in every state reachable
from construction by a finite sequence of the six public operations: the
relation is preserved by each atomic operation. -/
theorem peak_ge_current_reachable (mps mdd init : ℚ) (ops : List RMOp) :
    (applyOps (mkRiskManager mps mdd init) ops).current_balance ≤
      (applyOps (mkRiskManager mps mdd init) ops).peak_balance := by
  have main : ∀ (l : List RMOp) (rm : RiskManager),
      rm.current_balance ≤ rm.peak_balance →
      (applyOps rm l).current_balance ≤ (applyOps rm l).peak_balance := by
    intro l
    induction l with
    | nil => intro rm h; simpa [applyOps] using h
    | cons op rest ih =>
        intro rm h
        simpa [applyOps, List.foldl_cons] using
          ih (applyOp rm op) (applyOp_current_le_peak rm op h)
  exact main ops (mkRiskManager mps mdd init) (by simp [mkRiskManager])

/-! ## Lemmas about `Backtester` -/

/-- `int()` agrees with `floor` on nonnegative arguments. -/
lemma pyInt_of_nonneg (q : ℚ) (h : 0 ≤ q) : pyInt q = ⌊q⌋ := if_pos h

/-- Scaling `⌊x / y⌋` back by a positive `y` cannot exceed `x`: an
affordability-capped purchase never costs more than the available cash. -/
lemma floor_div_mul_le (x y : ℚ) (hy : 0 < y) : (⌊x / y⌋ : ℚ) * y ≤ x := by
  have h1 : (⌊x / y⌋ : ℚ) ≤ x / y := Int.floor_le _
  have h2 := mul_le_mul_of_nonneg_right h1 hy.le
  rwa [div_mul_cancel₀ x hy.ne'] at h2

/-- The buy branch of `backtestStep`, with `int()` resolved to `floor`. -/
lemma backtestStep_buy (fee cash : ℚ) (pos : ℤ) (price : ℚ)
    (hq : 0 ≤ cash / (price * (1 + fee))) :
    backtestStep fee cash pos price 1 =
      if 0 < ⌊cash / (price * (1 + fee))⌋ then
        (cash - ⌊cash / (price * (1 + fee))⌋ * price * (1 + fee),
         pos + ⌊cash / (price * (1 + fee))⌋)
      else (cash, pos) := by
  simp [backtestStep, pyInt_of_nonneg _ hq]

/-- The sell branch of `backtestStep`. -/
lemma backtestStep_sell (fee cash : ℚ) (pos : ℤ) (price : ℚ) :
    backtestStep fee cash pos price (-1) =
      if 0 < pos then (cash + pos * price * (1 - fee), 0)
      else (cash, pos) := by
  simp [backtestStep]

/-- Any signal other than `1` and `-1` changes nothing. -/
lemma backtestStep_hold (fee cash : ℚ) (pos : ℤ) (price : ℚ) (sig : ℤ)
    (h1 : sig ≠ 1) (h2 : sig ≠ -1) :
    backtestStep fee cash pos price sig = (cash, pos) := by
  simp [backtestStep, h1, h2]

/-- With `0 ≤ fee ≤ 1` and a positive price, one step keeps cash and
positions nonnegative. -/
lemma backtestStep_nonneg (fee cash : ℚ) (pos : ℤ) (price : ℚ) (sig : ℤ)
    (hc : 0 ≤ cash) (hp : 0 ≤ pos) (hpr : 0 < price)
    (hf0 : 0 ≤ fee) (hf1 : fee ≤ 1) :
    0 ≤ (backtestStep fee cash pos price sig).1 ∧
    0 ≤ (backtestStep fee cash pos price sig).2 := by
  have hy : 0 < price * (1 + fee) := by positivity
  by_cases h1 : sig = 1
  · subst h1
    have hq : 0 ≤ cash / (price * (1 + fee)) := div_nonneg hc hy.le
    rw [backtestStep_buy fee cash pos price hq]
    split
    · next hs =>
        constructor
        · have hcost : (⌊cash / (price * (1 + fee))⌋ : ℚ) * (price * (1 + fee))
              ≤ cash := floor_div_mul_le cash (price * (1 + fee)) hy
          simp only [← mul_assoc] at hcost
          simpa using sub_nonneg.mpr hcost
        · have : (0:ℤ) ≤ ⌊cash / (price * (1 + fee))⌋ := hs.le
          simpa using add_nonneg hp this
    · exact ⟨hc, hp⟩
  · by_cases h2 : sig = -1
    · subst h2
      rw [backtestStep_sell]
      split
      · next hpos =>
          refine ⟨?_, le_refl 0⟩
          have hrev : (0:ℚ) ≤ pos * price * (1 - fee) := by
            have hpq : (0:ℚ) ≤ (pos : ℚ) := by exact_mod_cast hpos.le
            have := sub_nonneg.mpr hf1
            positivity
          simpa using add_nonneg hc hrev
      · exact ⟨hc, hp⟩
    · rw [backtestStep_hold fee cash pos price sig h1 h2]
      exact ⟨hc, hp⟩

/-- Every snapshot the loop appends records `equity = cash + positions *
price`, and — when fees are a fraction in `[0, 1]`, prices positive, and
the starting cash and position nonnegative — nonnegative cash. -/
lemma backtestLoop_conservation (fee : ℚ) (hf0 : 0 ≤ fee) (hf1 : fee ≤ 1) :
    ∀ (inputs : List (ℤ × ℚ × ℤ)) (cash : ℚ) (pos : ℤ) (equity : ℚ),
      0 ≤ cash → 0 ≤ pos → (∀ x ∈ inputs, 0 < x.2.1) →
      ∀ e ∈ (backtestLoop fee cash pos equity inputs).1,
        e.equity = e.cash + e.positions * e.price ∧ 0 ≤ e.cash := by
  intro inputs
  induction inputs with
  | nil => intro cash pos equity _ _ _ e he; simp [backtestLoop] at he
  | cons hd tl ih =>
      intro cash pos equity hc hp hpr e he
      obtain ⟨t, price, sig⟩ := hd
      have hprice : 0 < price := by
        simpa using hpr (t, price, sig) (List.mem_cons_self _ _)
      have hstep := backtestStep_nonneg fee cash pos price sig hc hp hprice hf0 hf1
      simp only [backtestLoop, List.mem_cons] at he
      rcases he with he | he
      · subst he
        exact ⟨rfl, hstep.1⟩
      · exact ih (backtestStep fee cash pos price sig).1
          (backtestStep fee cash pos price sig).2 _ hstep.1 hstep.2
          (fun x hx => hpr x (List.mem_cons_of_mem _ hx)) e he

/-- The loop appends exactly one snapshot per visited step. -/
lemma backtestLoop_length (fee : ℚ) :
    ∀ (inputs : List (ℤ × ℚ × ℤ)) (cash : ℚ) (pos : ℤ) (equity : ℚ),
      (backtestLoop fee cash pos equity inputs).1.length = inputs.length := by
  intro inputs
  induction inputs with
  | nil => intro cash pos equity; rfl
  | cons hd tl ih =>
      intro cash pos equity
      obtain ⟨t, price, sig⟩ := hd
      simp [backtestLoop, ih]

/-- A successful `run` means the index-equality validation passed. -/
lemma run_fst_none (bt : Backtester) (signals : Series)
    (h : (bt.run signals).1 = none) :
    bt.data.rows.map Prod.fst = signals.rows.map Prod.fst := by
  by_contra hc
  simp [Backtester.run, hc] at h

/-- The state after a validated `run`: the loop result starting from the
current `cash`/`positions`, with the snapshots appended to `history`. -/
lemma run_snd_of_valid (bt : Backtester) (signals : Series)
    (h : bt.data.rows.map Prod.fst = signals.rows.map Prod.fst) :
    (bt.run signals).1 = none ∧
    (bt.run signals).2 =
      { bt with
        cash := (backtestLoop bt.trading_fee bt.cash bt.positions bt.equity
          (tradeInputs bt.data signals)).2.1
        positions := (backtestLoop bt.trading_fee bt.cash bt.positions
          bt.equity (tradeInputs bt.data signals)).2.2.1
        equity := (backtestLoop bt.trading_fee bt.cash bt.positions bt.equity
          (tradeInputs bt.data signals)).2.2.2
        history := bt.history ++ (backtestLoop bt.trading_fee bt.cash
          bt.positions bt.equity (tradeInputs bt.data signals)).1 } := by
  constructor <;> simp [Backtester.run, h]

/-- A constructor success pins down the produced engine state. -/
lemma mkBacktester_ok (data : DataFrame) (init fee : ℚ) (bt : Backtester)
    (h : mkBacktester data init fee = .ok bt) :
    "close" ∈ data.cols ∧
    bt = { data := data, initial_capital := init, trading_fee := fee,
           cash := init, positions := 0, equity := init, history := [] } := by
  unfold mkBacktester at h
  split at h
  · exact ⟨‹_›, (Except.ok.inj h).symm⟩
  · exact Except.noConfusion h

/-- When the indices agree, the loop visits all but the first step. -/
lemma tradeInputs_length (data : DataFrame) (signals : Series)
    (h : data.rows.map Prod.fst = signals.rows.map Prod.fst) :
    (tradeInputs data signals).length = signals.rows.length - 1 := by
  have hlen : data.rows.length = signals.rows.length := by
    simpa using congrArg List.length h
  simp [tradeInputs, hlen]

/-- The prices the loop sees are close prices of the data rows. -/
lemma tradeInputs_price_pos (data : DataFrame) (signals : Series)
    (h : ∀ r ∈ data.rows, 0 < r.2) :
    ∀ x ∈ tradeInputs data signals, 0 < x.2.1 := by
  intro x hx
  have hx2 := List.mem_of_mem_tail hx
  obtain ⟨p, hp, rfl⟩ := List.mem_map.1 hx2
  exact h p.1 (List.of_mem_zip hp).1

/-! ## Theorems about `Backtester` (claims C1, C3, C5, C6, C9, C10) -/

/-- C1 counterexample inputs: initial capital `100 ≥ 0`, all close prices
`10 > 0`, trading fee `2 ≥ 0` — every hypothesis of the claim as stated. -/
def feeTwoData : DataFrame := ⟨["close"], [(0, 10), (1, 10), (2, 10)]⟩

/-- Signals `[HOLD, BUY, SELL]` for the C1 counterexample. -/
def feeTwoSignals : Series := ⟨[(0, 0), (1, 1), (2, -1)]⟩

/-- The engine `Backtester.__init__(feeTwoData, 100, 2)` constructs. -/
def feeTwoBt : Backtester := ⟨feeTwoData, 100, 2, 100, 0, 100, []⟩

/-- C1 fails as stated: with a trading fee of `2` (allowed by the claim,
which only requires `fee ≥ 0`), the BUY at price 10 leaves cash 10, and the
SELL then credits `3 * 10 * (1 - 2) = -30`, driving cash to `-20 < 0` in
the recorded history. -/
theorem backtest_conservation_cex :
    mkBacktester feeTwoData 100 2 = .ok feeTwoBt
    ∧ (feeTwoBt.run feeTwoSignals).1 = none
    ∧ ((feeTwoBt.run feeTwoSignals).2.history.map HistEntry.cash)
        = [10, -20]
    ∧ ¬ (0 : ℚ) ≤ (-20 : ℚ) := by
  refine ⟨rfl, rfl, ?_, by norm_num⟩
  norm_num [feeTwoBt, feeTwoData, feeTwoSignals, Backtester.run,
    tradeInputs, backtestLoop, backtestStep, pyInt]

/-- C1 (amended: the trading fee is additionally `≤ 1`, i.e. a fraction —
with `fee > 1` a SELL credits a negative amount and the counterexample
`backtest_conservation_cex` drives cash negative): for every run with
initial capital `≥ 0`, all close prices `> 0` and `0 ≤ fee ≤ 1`, every
recorded snapshot satisfies `equity = cash + positions * price` exactly and
`cash ≥ 0` (a BUY spends at most the available cash because the unit count
is capped by affordability). -/
theorem backtest_conservation (data : DataFrame) (init fee : ℚ)
    (signals : Series) (bt : Backtester)
    (hinit : 0 ≤ init) (hfee0 : 0 ≤ fee) (hfee1 : fee ≤ 1)
    (hprices : ∀ r ∈ data.rows, 0 < r.2)
    (hmk : mkBacktester data init fee = .ok bt) :
    ∀ e ∈ (bt.run signals).2.history,
      e.equity = e.cash + e.positions * e.price ∧ 0 ≤ e.cash := by
  obtain ⟨-, rfl⟩ := mkBacktester_ok data init fee bt hmk
  by_cases hidx : data.rows.map Prod.fst = signals.rows.map Prod.fst
  · have h2 := (run_snd_of_valid
      (Backtester.mk data init fee init 0 init []) signals hidx).2
    rw [h2]
    intro e he
    simp only [List.nil_append] at he
    exact backtestLoop_conservation fee hfee0 hfee1 _ init 0 init hinit
      le_rfl (tradeInputs_price_pos data signals hprices) e he
  · intro e he
    simp [Backtester.run, hidx] at he

/-- Witness for the amended C1 on a concrete run: two prices `[100, 110]`,
signals `[HOLD, BUY]`, capital 1000, fee 0; the single snapshot
`(t=1, price=110, cash=10, positions=9, equity=1000)` satisfies the
invariant. -/
theorem backtest_conservation_witness :
    (⟨1, 110, 1, 10, 9, 1000⟩ : HistEntry) ∈
      ((Backtester.mk ⟨["close"], [(0, 100), (1, 110)]⟩ 1000 0 1000 0 1000
        []).run ⟨[(0, 0), (1, 1)]⟩).2.history
    ∧ (1000 : ℚ) = 10 + 9 * 110 ∧ (0 : ℚ) ≤ 10 := by
  have hmem : (⟨1, 110, 1, 10, 9, 1000⟩ : HistEntry) ∈
      ((Backtester.mk ⟨["close"], [(0, 100), (1, 110)]⟩ 1000 0 1000 0 1000
        []).run ⟨[(0, 0), (1, 1)]⟩).2.history := by
    norm_num [Backtester.run, tradeInputs, backtestLoop, backtestStep, pyInt]
  have h := backtest_conservation ⟨["close"], [(0, 100), (1, 110)]⟩ 1000 0
    ⟨[(0, 0), (1, 1)]⟩
    (Backtester.mk ⟨["close"], [(0, 100), (1, 110)]⟩ 1000 0 1000 0 1000 [])
    (by norm_num) (by norm_num) (by norm_num)
    (by intro r hr; fin_cases hr <;> norm_num) rfl
  have h2 := h _ hmem
  exact ⟨hmem, by simpa using h2.1, h2.2⟩

/-- C3: a successful run on a fresh engine appends exactly `n - 1`
snapshots (the first element only seeds the unused previous price: no trade,
no snapshot), and each step follows the claimed semantics — a BUY buys
`⌊cash / (price * (1 + fee))⌋` units when that count is `≥ 1`, deducting
`units * price * (1 + fee)`, and is a no-op otherwise; a SELL with a
positive position credits `positions * price * (1 - fee)` and zeroes the
position, and is a no-op otherwise; any other signal changes nothing. -/
theorem backtest_step_semantics (bt : Backtester) (signals : Series)
    (cash : ℚ) (pos : ℤ) (price fee : ℚ) (sig : ℤ)
    (hhist : bt.history = []) (hrun : (bt.run signals).1 = none)
    (hc : 0 ≤ cash) (hpr : 0 < price) (hf : 0 ≤ fee) :
    (bt.run signals).2.history.length = signals.rows.length - 1
    ∧ (sig = 1 → backtestStep fee cash pos price sig =
        (if 1 ≤ ⌊cash / (price * (1 + fee))⌋ then
          (cash - ⌊cash / (price * (1 + fee))⌋ * price * (1 + fee),
           pos + ⌊cash / (price * (1 + fee))⌋)
        else (cash, pos)))
    ∧ (sig = -1 → backtestStep fee cash pos price sig =
        (if 0 < pos then (cash + pos * price * (1 - fee), 0)
         else (cash, pos)))
    ∧ (sig ≠ 1 → sig ≠ -1 →
        backtestStep fee cash pos price sig = (cash, pos)) := by
  have hidx := run_fst_none bt signals hrun
  refine ⟨?_, ?_, ?_, ?_⟩
  · rw [(run_snd_of_valid bt signals hidx).2]
    simp [hhist, backtestLoop_length, tradeInputs_length bt.data signals hidx]
  · intro hsig
    subst hsig
    have hy : (0 : ℚ) < price * (1 + fee) := by positivity
    have hcond : (0 < ⌊cash / (price * (1 + fee))⌋) ↔
        (1 ≤ ⌊cash / (price * (1 + fee))⌋) := by omega
    rw [backtestStep_buy fee cash pos price (div_nonneg hc hy.le)]
    simp only [hcond]
  · intro hsig
    subst hsig
    exact backtestStep_sell fee cash pos price
  · intro h1 h2
    exact backtestStep_hold fee cash pos price sig h1 h2

/-- Witness for C3: on prices `[100, 110]` and signals `[HOLD, BUY]` the
fresh run records `2 - 1 = 1` snapshot, and the BUY step at cash 1000,
price 110, fee 0 follows the affordability-capped rule. -/
theorem backtest_step_semantics_witness :
    ((Backtester.mk ⟨["close"], [(0, 100), (1, 110)]⟩ 1000 0 1000 0 1000
        []).run ⟨[(0, 0), (1, 1)]⟩).2.history.length
      = (Series.mk [(0, 0), (1, 1)]).rows.length - 1
    ∧ backtestStep 0 1000 0 110 1 =
        (if 1 ≤ ⌊(1000 : ℚ) / (110 * (1 + 0))⌋ then
          ((1000 : ℚ) - ⌊(1000 : ℚ) / (110 * (1 + 0))⌋ * 110 * (1 + 0),
           0 + ⌊(1000 : ℚ) / (110 * (1 + 0))⌋)
        else (1000, 0)) := by
  have h := backtest_step_semantics
    (Backtester.mk ⟨["close"], [(0, 100), (1, 110)]⟩ 1000 0 1000 0 1000 [])
    ⟨[(0, 0), (1, 1)]⟩ 1000 0 110 0 1 rfl rfl
    (by norm_num) (by norm_num) (by norm_num)
  exact ⟨h.1, h.2.1 rfl⟩

/-- The end-to-end example price series `[100, 110, 90, 120]`. -/
def exampleData : DataFrame :=
  ⟨["close"], [(0, 100), (1, 110), (2, 90), (3, 120)]⟩

/-- The end-to-end example signals `[HOLD, BUY, SELL, HOLD]`. -/
def exampleSignals : Series := ⟨[(0, 0), (1, 1), (2, -1), (3, 0)]⟩

/-- The engine `Backtester.__init__(exampleData, 1000, 0)` constructs. -/
def exampleBt : Backtester := ⟨exampleData, 1000, 0, 1000, 0, 1000, []⟩

/-- C5: on prices `[100, 110, 90, 120]`, signals `[HOLD, BUY, SELL, HOLD]`,
capital 1000 and fee 0, the BUY at 110 buys 9 units for 990 (cash 10,
positions 9), the SELL at 90 credits 810 (cash 820, positions 0), the final
HOLD leaves equity at 820, and the metrics report
`total_return = -18/100 = -0.18`. -/
theorem backtest_end_to_end_example :
    mkBacktester exampleData 1000 0 = .ok exampleBt
    ∧ (exampleBt.run exampleSignals).1 = none
    ∧ ((exampleBt.run exampleSignals).2.history.map
        fun e => (e.cash, e.positions, e.equity))
      = [(10, 9, 1000), (820, 0, 820), (820, 0, 820)]
    ∧ (exampleBt.run exampleSignals).2.calculate_performance_metrics
      = .ok ⟨1000, 820, -18/100, 0⟩ := by
  refine ⟨rfl, rfl, ?_, ?_⟩
  · norm_num [exampleBt, exampleData, exampleSignals, Backtester.run,
      tradeInputs, backtestLoop, backtestStep, pyInt]
  · norm_num [exampleBt, exampleData, exampleSignals, Backtester.run,
      Backtester.calculate_performance_metrics, Backtester.get_results,
      tradeInputs, backtestLoop, backtestStep, pyInt,
      calculateMaxDrawdown, maxDrawdownLoop]

/-- C6: a missing `close` column makes construction fail (no engine object
— and hence no history — is ever produced), and a data/signals index
mismatch makes `run` raise before any simulation step: the returned state
is exactly the input state, so cash, positions and history are untouched
and no partial history exists. -/
theorem config_errors_before_simulation (data : DataFrame) (init fee : ℚ)
    (bt : Backtester) (signals : Series)
    (hcol : "close" ∉ data.cols)
    (hidx : bt.data.rows.map Prod.fst ≠ signals.rows.map Prod.fst) :
    mkBacktester data init fee = .error "Data must contain a close column."
    ∧ bt.run signals =
        (some "Data and signals must have the same index.", bt) := by
  constructor
  · simp [mkBacktester, hcol]
  · simp [Backtester.run, hidx]

/-- Witness for C6 at concrete inputs: a data frame with only an `open`
column, and an engine whose one-row index `[0]` differs from the empty
signal index. -/
theorem config_errors_before_simulation_witness :
    "close" ∉ (["open"] : List String)
    ∧ (Backtester.mk ⟨["close"], [(0, 10)]⟩ 100 0 100 0 100 []).data.rows.map
        Prod.fst ≠ (Series.mk []).rows.map Prod.fst
    ∧ mkBacktester ⟨["open"], []⟩ 100 0 =
        .error "Data must contain a close column."
    ∧ (Backtester.mk ⟨["close"], [(0, 10)]⟩ 100 0 100 0 100 []).run ⟨[]⟩ =
        (some "Data and signals must have the same index.",
         Backtester.mk ⟨["close"], [(0, 10)]⟩ 100 0 100 0 100 []) := by
  have h := config_errors_before_simulation ⟨["open"], []⟩ 100 0
    (Backtester.mk ⟨["close"], [(0, 10)]⟩ 100 0 100 0 100 []) ⟨[]⟩
    (by simp) (by simp)
  exact ⟨by simp, by simp, h.1, h.2⟩

/-- C9: on a freshly constructed engine (before any `run`), `get_results()`
returns an empty table and `calculate_performance_metrics()` returns the
empty dict; neither raises. -/
theorem empty_run_empty_results (data : DataFrame) (init fee : ℚ)
    (bt : Backtester) (hmk : mkBacktester data init fee = .ok bt) :
    bt.get_results = [] ∧ bt.calculate_performance_metrics = .emptyDict := by
  obtain ⟨-, rfl⟩ := mkBacktester_ok data init fee bt hmk
  exact ⟨rfl, rfl⟩

/-- Witness for C9 on a concrete freshly constructed engine. -/
theorem empty_run_empty_results_witness :
    mkBacktester ⟨["close"], [(0, 10)]⟩ 100 0 =
      .ok (Backtester.mk ⟨["close"], [(0, 10)]⟩ 100 0 100 0 100 [])
    ∧ (Backtester.mk ⟨["close"], [(0, 10)]⟩ 100 0 100 0 100 []).get_results
        = []
    ∧ Backtester.calculate_performance_metrics
        (Backtester.mk ⟨["close"], [(0, 10)]⟩ 100 0 100 0 100 [])
        = .emptyDict := by
  have h := empty_run_empty_results ⟨["close"], [(0, 10)]⟩ 100 0
    (Backtester.mk ⟨["close"], [(0, 10)]⟩ 100 0 100 0 100 []) rfl
  exact ⟨rfl, h.1, h.2⟩

/-- C10: re-invoking `run` with the same (validly indexed) signals on the
same instance is neither rejected nor started fresh: the second call also
succeeds, its snapshots are computed starting from the cash and positions
the first run left behind, and they are appended after the first run's
history entries — so from a fresh engine the history length doubles to
`2 * (n - 1)`. -/
theorem rerun_appends_history (bt : Backtester) (signals : Series)
    (hrun : (bt.run signals).1 = none) :
    ((bt.run signals).2.run signals).1 = none
    ∧ ((bt.run signals).2.run signals).2.history
        = (bt.run signals).2.history
          ++ (backtestLoop (bt.run signals).2.trading_fee
              (bt.run signals).2.cash (bt.run signals).2.positions
              (bt.run signals).2.equity
              (tradeInputs (bt.run signals).2.data signals)).1
    ∧ (bt.history = [] →
        ((bt.run signals).2.run signals).2.history.length
          = 2 * (signals.rows.length - 1)) := by
  have hidx := run_fst_none bt signals hrun
  have h1 := (run_snd_of_valid bt signals hidx).2
  have hdata : (bt.run signals).2.data = bt.data := by rw [h1]
  have hidx1 : (bt.run signals).2.data.rows.map Prod.fst
      = signals.rows.map Prod.fst := by rw [hdata]; exact hidx
  have h2 := run_snd_of_valid (bt.run signals).2 signals hidx1
  refine ⟨h2.1, by rw [h2.2], ?_⟩
  intro hfresh
  rw [h2.2]
  have hl1 : (bt.run signals).2.history.length = signals.rows.length - 1 := by
    rw [h1]
    simp [hfresh, backtestLoop_length, tradeInputs_length bt.data signals hidx]
  have hl2 : (backtestLoop (bt.run signals).2.trading_fee
      (bt.run signals).2.cash (bt.run signals).2.positions
      (bt.run signals).2.equity
      (tradeInputs (bt.run signals).2.data signals)).1.length
      = signals.rows.length - 1 := by
    rw [backtestLoop_length, hdata, tradeInputs_length bt.data signals hidx]
  simp only [List.length_append, hl1, hl2]
  omega

/-- Witness for C10: prices `[100, 110]`, signals `[HOLD, BUY]`, run twice
from a fresh engine; the history doubles to `2 * (2 - 1) = 2` entries. -/
theorem rerun_appends_history_witness :
    (((Backtester.mk ⟨["close"], [(0, 100), (1, 110)]⟩ 1000 0 1000 0 1000
        []).run ⟨[(0, 0), (1, 1)]⟩).2.run ⟨[(0, 0), (1, 1)]⟩).1 = none
    ∧ (((Backtester.mk ⟨["close"], [(0, 100), (1, 110)]⟩ 1000 0 1000 0 1000
        []).run ⟨[(0, 0), (1, 1)]⟩).2.run ⟨[(0, 0), (1, 1)]⟩).2.history.length
      = 2 * ((Series.mk [(0, 0), (1, 1)]).rows.length - 1) := by
  have h := rerun_appends_history
    (Backtester.mk ⟨["close"], [(0, 100), (1, 110)]⟩ 1000 0 1000 0 1000 [])
    ⟨[(0, 0), (1, 1)]⟩ rfl
  exact ⟨h.1, h.2.2 rfl⟩
